import Mathlib

/-!
Verification development for the interactive file manager
(`directories_and_files.py`).

Modelling conventions:

* Python strings are Lean `String`s.  `str.strip`, `str.lower`,
  `str.isdigit` and `int(...)` are modelled on their ASCII behaviour
  (`pyStrip`, `pyLower`, `pyIsDigit`, `pyToNat`); the program only compares
  against ASCII keywords.
* A filesystem path is a parent directory (a list of components below the
  filesystem root) together with a file name (`PathM`).  The filesystem is
  the finite set of currently existing paths (`Finset PathM`).  The parent
  of a directory is obtained by dropping its last component; the parent of
  the root is the root itself, as in `pathlib`.
* The float arithmetic of `format_file_size` is modelled by exact rational
  arithmetic: after `k` divisions the running value is `n / 1024 ^ k`,
  represented by the numerator `n` and the denominator `1024 ^ k`.  For
  `n < 2 ^ 53` every CPython float division by 1024 in the loop is exact,
  so the model coincides with the source there.  The format `"%.1f"` is
  correct rounding to one decimal, ties to even (`roundHalfEven`).
* Operating-system failures of `unlink`, `rename` and `stat` are modelled
  as "the path does not exist in the current filesystem"; the uncaught
  `OSError` of the `stat` calls in the display loop of `delete_files` is
  recorded as a crash of the operation (it propagates to the top-level
  handler of `run`).
-/

/-- ASCII whitespace stripped by `str.strip()`. -/
def isPyWs (c : Char) : Bool :=
  c == ' ' || c == '\t' || c == '\n' || c == '\r' || c == Char.ofNat 11 || c == Char.ofNat 12

/-- Model of `str.strip()` (ASCII whitespace). -/
def pyStrip (s : String) : String :=
  String.mk (((s.data.dropWhile isPyWs).reverse.dropWhile isPyWs).reverse)

/-- Model of `str.lower()` (ASCII letters; the compared keywords are ASCII). -/
def pyLower (s : String) : String :=
  String.mk (s.data.map Char.toLower)

/-- Model of `input(...).strip().lower()`, the read used by every menu of the
program except the operations menu (which omits `.lower()`). -/
def menuRead (s : String) : String :=
  pyLower (pyStrip s)

/-- Model of `str.isdigit()` (ASCII digits). -/
def pyIsDigit (s : String) : Bool :=
  !s.data.isEmpty && s.data.all Char.isDigit

/-- Model of `int(...)` on a digit string. -/
def pyToNat (s : String) : Nat :=
  s.data.foldl (fun a c => a * 10 + (c.toNat - 48)) 0

/-- Round `num / den` to the nearest integer, ties to even: the rounding
performed by CPython's `"%.1f"` formatting on an exactly represented value. -/
def roundHalfEven (num den : Nat) : Nat :=
  let q := num / den
  let r := num % den
  if 2 * r < den then q
  else if den < 2 * r then q + 1
  else if q % 2 = 0 then q else q + 1

/-- Render the rational `num / den` with one decimal digit, as
`f"{x:.1f}"` does for an exactly represented `x`. -/
def fmt1 (num den : Nat) : String :=
  let t := roundHalfEven (10 * num) den
  toString (t / 10) ++ "." ++ toString (t % 10)

def BYTES_PER_KB : Nat := 1024

/-- The `for unit in ["B", "KB", "MB", "GB"]` loop of `format_file_size`:
after `k` executed divisions the running value is `n / 1024 ^ k`, and the
guard `size_bytes < BYTES_PER_KB` is `n / 1024 ^ k < 1024`, that is
`n < 1024 ^ (k + 1)`. -/
def formatLoop : List String → Nat → Nat → String
  | [], n, k => fmt1 n (BYTES_PER_KB ^ k) ++ " TB"
  | u :: us, n, k =>
    if n < BYTES_PER_KB ^ (k + 1) then fmt1 n (BYTES_PER_KB ^ k) ++ " " ++ u
    else formatLoop us n (k + 1)

/-- `FileManager.format_file_size`. -/
def format_file_size (n : Nat) : String :=
  formatLoop ["B", "KB", "MB", "GB"] n 0

/-- The unit sequence named by the specification. -/
def specUnits : List String := ["B", "KB", "MB", "GB", "TB"]

/-- Spec-side unit choice: the first unit at which the remaining value is
strictly below 1024, with TB terminal. -/
def specUnitIndex (n : Nat) : Nat :=
  if n < 1024 then 0
  else if n < 1024 ^ 2 then 1
  else if n < 1024 ^ 3 then 2
  else if n < 1024 ^ 4 then 3
  else 4

/-- Spec-side formatter, following the specification's words: divide through
the unit sequence, stop at the first unit with value below 1024 (TB
terminal), render the value rounded to one decimal, a space, the unit. -/
def specFormat (n : Nat) : String :=
  fmt1 n (1024 ^ specUnitIndex n) ++ " " ++ specUnits.getD (specUnitIndex n) "TB"

/-- A filesystem path: the parent directory as its component list below the
filesystem root, plus the entry name. -/
structure PathM where
  dir : List String
  name : String
deriving DecidableEq, Repr

/-- What a directory child is on disk: a regular file, a directory, a
symbolic link to one of those (for which `is_file` / `is_dir` follow the
link), a broken or other symbolic link, or something else. -/
inductive EntryKind where
  | file
  | dir
  | symlinkFile
  | symlinkDir
  | symlinkOther
  | other
deriving DecidableEq, Repr

/-- A child of the listed directory. -/
structure Entry where
  name : String
  kind : EntryKind
deriving DecidableEq, Repr

/-- `Path.is_file()`: true for regular files and symlinks to regular files. -/
def Entry.isFileE (e : Entry) : Bool :=
  e.kind == EntryKind.file || e.kind == EntryKind.symlinkFile

/-- `Path.is_dir()`: true for directories and symlinks to directories. -/
def Entry.isDirE (e : Entry) : Bool :=
  e.kind == EntryKind.dir || e.kind == EntryKind.symlinkDir

/-- `Path.is_symlink()`. -/
def Entry.isSymlinkE (e : Entry) : Bool :=
  e.kind == EntryKind.symlinkFile || e.kind == EntryKind.symlinkDir ||
    e.kind == EntryKind.symlinkOther

/-- Name order used by `sorted(...)` on same-directory `Path` objects:
lexicographic string comparison of the entry names. -/
def nameLe (a b : Entry) : Prop := a.name ≤ b.name

instance : DecidableRel nameLe := fun a b => inferInstanceAs (Decidable (a.name ≤ b.name))

instance : IsTotal Entry nameLe := ⟨fun a b => le_total a.name b.name⟩

instance : IsTrans Entry nameLe := ⟨fun _ _ _ h1 h2 => le_trans h1 h2⟩

/-- `sorted(...)` on the children of one directory: a stable sort by name,
modelled by insertion sort (also stable, hence the same output). -/
def sortEntries (entries : List Entry) : List Entry :=
  List.insertionSort nameLe entries

/-- `FileManager.get_directories`: `sorted(path.iterdir())` filtered to
entries that are directories and not symlinks. -/
def get_directories (entries : List Entry) : List Entry :=
  (sortEntries entries).filter (fun e => Entry.isDirE e && !(Entry.isSymlinkE e))

/-- `FileManager.get_files`: `sorted(path.glob("*"))` — `glob("*")` yields
every child — filtered to entries that are files and not symlinks. -/
def get_files (entries : List Entry) : List Entry :=
  (sortEntries entries).filter (fun e => Entry.isFileE e && !(Entry.isSymlinkE e))

/-- `PurePath.parent`: drop the final path component; the parent of the
filesystem root is the root itself. -/
def pyParent (p : List String) : List String := p.dropLast

/-- `FileManager._handle_directory_choice` on the already stripped and
lowered input line.  The second component records whether the
"Already at root directory" warning was printed. -/
def handle_directory_choice (choice : String) (cur : List String)
    (dirs : List (List String)) : Option (List String) × Bool :=
  if choice = "y" ∨ choice = "yes" ∨ choice = "" then (some cur, false)
  else if choice = "q" ∨ choice = "quit" then (none, false)
  else if choice = ".." then
    if pyParent cur ≠ cur then (some (pyParent cur), false)
    else (some cur, true)
  else if pyIsDigit choice then
    if 1 ≤ pyToNat choice then
      match dirs.get? (pyToNat choice - 1) with
      | some d => (some d, false)
      | none => (some cur, false)
    else (some cur, false)
  else (some cur, false)

/-- The branch taken by `FileManager._run_operations_menu` for one read
line: the input is stripped but — unlike every other prompt of the
program — not lowered. -/
inductive OpsAction where
  | rename
  | delete
  | info
  | quit
  | invalid
deriving DecidableEq, Repr

/-- One dispatch of `FileManager._run_operations_menu` on the raw input
line (`input(...).strip()`, without `.lower()`). -/
def opsMenuAction (raw : String) : OpsAction :=
  let choice := pyStrip raw
  if choice = "1" then OpsAction.rename
  else if choice = "2" then OpsAction.delete
  else if choice = "3" then OpsAction.info
  else if choice = "4" ∨ choice = "q" ∨ choice = "quit" ∨ choice = "" then OpsAction.quit
  else OpsAction.invalid

/-- `FileManager._handle_file_choice` on the already stripped and lowered
input line.  Returns the updated selection list (the Python code mutates
`selected_files` in place; the model threads it) and the should-continue
flag. -/
def handle_file_choice (choice : String) (files : List PathM)
    (sel : List PathM) : List PathM × Bool :=
  if choice = "d" ∨ choice = "done" ∨ choice = "" then (sel, false)
  else if choice = "q" ∨ choice = "quit" then ([], false)
  else if choice = "c" ∨ choice = "clear" then ([], true)
  else if pyIsDigit choice then
    if h : 1 ≤ pyToNat choice ∧ pyToNat choice - 1 < files.length then
      if files.get ⟨pyToNat choice - 1, h.2⟩ ∈ sel then
        (sel.erase (files.get ⟨pyToNat choice - 1, h.2⟩), true)
      else (sel ++ [files.get ⟨pyToNat choice - 1, h.2⟩], true)
    else (sel, true)
  else (sel, true)

/-- The selection produced by a sequence of File Selector inputs applied to
the empty initial selection (the loop body of `FileManager.choose_files`). -/
def apply_file_choices (files : List PathM) (choices : List String) : List PathM :=
  choices.foldl (fun sel c => (handle_file_choice c files sel).1) []

/-- `FileManager._validate_filename`: no reserved character occurs in the
proposed name. -/
def INVALID_FILENAME_CHARS : List Char := ['<', '>', ':', '"', '/', '\\', '|', '?', '*']

def validate_filename (filename : String) : Bool :=
  !(INVALID_FILENAME_CHARS.any fun c => filename.data.contains c)

/-- Outcome reported for one file of a rename batch. -/
inductive RenMsg where
  | skippedEmpty
  | skippedInvalid
  | skippedExists
  | renamed (newPath : PathM)
  | osError
deriving DecidableEq, Repr

/-- One iteration of the `rename_files` loop: prompt answer `nmRaw` for file
`f` against filesystem `fs`.  `Path.rename` failing at the OS level is
modelled as the source path not existing. -/
def renameOne (nmRaw : String) (f : PathM) (fs : Finset PathM) :
    Finset PathM × RenMsg :=
  let new_name := pyStrip nmRaw
  if new_name = "" then (fs, RenMsg.skippedEmpty)
  else if !validate_filename new_name then (fs, RenMsg.skippedInvalid)
  else
    let new_path : PathM := ⟨f.dir, new_name⟩
    if new_path ∈ fs then (fs, RenMsg.skippedExists)
    else if f ∈ fs then (insert new_path (fs.erase f), RenMsg.renamed new_path)
    else (fs, RenMsg.osError)

/-- `FileManager.rename_files`: one prompt answer per selected file, in
order.  Returns the selection list as left by the call (the function never
mutates it), the final filesystem, and the per-file log. -/
def rename_files : List String → List PathM → Finset PathM →
    List PathM × Finset PathM × List (PathM × RenMsg)
  | _, [], fs => ([], fs, [])
  | ins, f :: rest, fs =>
    let step := renameOne (ins.headD "") f fs
    let next := rename_files ins.tail rest step.1
    (f :: next.1, next.2.1, (f, step.2) :: next.2.2)

/-- The post-confirmation deletion loop of `FileManager.delete_files`: the
`try` block wraps the whole `for`, so the first `OSError` stops the batch.
Returns the final filesystem, the unlinked paths in order, and the path
whose `unlink` raised, if any. -/
def delLoop : List PathM → Finset PathM → Finset PathM × List PathM × Option PathM
  | [], fs => (fs, [], none)
  | f :: rest, fs =>
    if f ∈ fs then
      let next := delLoop rest (fs.erase f)
      (next.1, f :: next.2.1, next.2.2)
    else (fs, [], some f)

/-- Observable outcome of one `delete_files` call. -/
structure DelOutcome where
  unlinked : List PathM
  errorAt : Option PathM
  crashed : Bool
  cancelled : Bool
  reported : Option (Nat × Nat)
deriving DecidableEq, Repr

/-- `FileManager.delete_files`.  `fs0` is the filesystem when the display
loop `stat`s every selected file (an absent path raises an uncaught
`OSError` there: `crashed`), `fs1` the filesystem when the deletion loop
runs; a difference models an external change in between.  `confirmRaw` is
the raw confirmation line, read with `.strip().lower()`.  `reported` is the
final "deleted X/Y" count, printed only when the loop was reached. -/
def delete_files (confirmRaw : String) (files : List PathM)
    (fs0 fs1 : Finset PathM) : Finset PathM × DelOutcome :=
  if files = [] then (fs1, ⟨[], none, false, false, none⟩)
  else if !(files.all fun f => decide (f ∈ fs0)) then (fs1, ⟨[], none, true, false, none⟩)
  else if menuRead confirmRaw ≠ "y" ∧ menuRead confirmRaw ≠ "yes" then
    (fs1, ⟨[], none, false, true, none⟩)
  else
    let r := delLoop files fs1
    (r.1, ⟨r.2.1, r.2.2, false, false, some (r.2.1.length, files.length)⟩)

/-- C5: for every non-negative byte count, `format_file_size` divides through
the unit sequence B, KB, MB, GB, TB, stops at the first unit where the
remaining value is strictly below 1024 (TB terminal), and returns the value
rounded to one decimal, a space, and the unit symbol; in particular
`format 0 = "0.0 B"`, `format 1023 = "1023.0 B"`, `format 1024 = "1.0 KB"`,
`format 1536 = "1.5 KB"`, `format (1024 * 1024) = "1.0 MB"`. -/
theorem c5_format_file_size_matches_spec :
    (∀ n : Nat, format_file_size n = specFormat n) ∧
      format_file_size 0 = "0.0 B" ∧
      format_file_size 1023 = "1023.0 B" ∧
      format_file_size 1024 = "1.0 KB" ∧
      format_file_size 1536 = "1.5 KB" ∧
      format_file_size (1024 * 1024) = "1.0 MB" := by
  refine ⟨fun n => ?_, by decide, by decide, by decide, by decide, by decide⟩
  unfold format_file_size specFormat specUnitIndex specUnits
  simp only [formatLoop, BYTES_PER_KB]
  split_ifs <;> simp_all [String.append_assoc]

theorem filter_pred_file (e : Entry) :
    (Entry.isFileE e && !(Entry.isSymlinkE e)) = (e.kind == EntryKind.file) := by
  cases e with
  | mk n k => cases k <;> rfl

theorem filter_pred_dir (e : Entry) :
    (Entry.isDirE e && !(Entry.isSymlinkE e)) = (e.kind == EntryKind.dir) := by
  cases e with
  | mk n k => cases k <;> rfl

/-- C9: for every directory, `get_directories` returns exactly the immediate
child directories and `get_files` exactly the immediate child regular files,
symbolic links of either kind excluded from both, each sorted by name in
ascending lexicographic order; a directory with one regular file and one
symlink-to-file yields a file list of length 1. -/
theorem c9_listings_filter_and_sort (entries : List Entry) :
    (get_files entries).Perm (entries.filter fun e => e.kind == EntryKind.file) ∧
    (get_directories entries).Perm (entries.filter fun e => e.kind == EntryKind.dir) ∧
    List.Sorted nameLe (get_files entries) ∧
    List.Sorted nameLe (get_directories entries) ∧
    (get_files [⟨"real.txt", EntryKind.file⟩,
      ⟨"link.txt", EntryKind.symlinkFile⟩]).length = 1 := by
  have hf : (fun e => Entry.isFileE e && !(Entry.isSymlinkE e))
      = (fun e : Entry => e.kind == EntryKind.file) := funext filter_pred_file
  have hd : (fun e => Entry.isDirE e && !(Entry.isSymlinkE e))
      = (fun e : Entry => e.kind == EntryKind.dir) := funext filter_pred_dir
  have hperm : ∀ es : List Entry,
      (get_files es).Perm (es.filter fun e => e.kind == EntryKind.file) := fun es => by
    rw [get_files, hf]
    exact (List.perm_insertionSort nameLe es).filter _
  refine ⟨hperm entries, ?_, ?_, ?_, ?_⟩
  · rw [get_directories, hd]
    exact (List.perm_insertionSort nameLe entries).filter _
  · exact List.Pairwise.sublist (List.filter_sublist _)
      (List.sorted_insertionSort nameLe entries)
  · exact List.Pairwise.sublist (List.filter_sublist _)
      (List.sorted_insertionSort nameLe entries)
  · rw [(hperm _).length_eq]
    decide

theorem pyParent_eq_self_iff (cur : List String) : pyParent cur = cur ↔ cur = [] := by
  constructor
  · intro h
    rcases cur with _ | ⟨a, t⟩
    · rfl
    · have hlen := congrArg List.length h
      rw [pyParent, List.length_dropLast] at hlen
      simp at hlen
  · intro h
    subst h
    rfl

/-- C8: the Directory Navigator's Ascend action always replaces the current
path by its parent; at the filesystem root (where the parent equals the
path itself) it emits the warning and the path stays unchanged, so the
current path never goes above the root. -/
theorem c8_ascend_parent_and_root (cur : List String) (dirs : List (List String)) :
    (handle_directory_choice ".." cur dirs).1 = some (pyParent cur) ∧
    ((handle_directory_choice ".." cur dirs).2 = true ↔ pyParent cur = cur) ∧
    (pyParent cur = cur ↔ cur = []) := by
  refine ⟨?_, ?_, pyParent_eq_self_iff cur⟩ <;>
  · unfold handle_directory_choice
    by_cases h : pyParent cur = cur <;> simp [h]

/-- C4 counterexample: the bulk-operations menu reads its choice with
`.strip()` but without `.lower()`, so the upper-case inputs "Q" and "QUIT"
are rejected as invalid there instead of exiting, unlike "q" and "quit"
— refuting the claim that every keyword prompt case-normalizes its input
and that the menu exits on "Q"/"QUIT" exactly as on "q". -/
theorem c4_counterexample_ops_menu_upper_q :
    opsMenuAction "Q" = OpsAction.invalid ∧
    opsMenuAction "QUIT" = OpsAction.invalid ∧
    opsMenuAction "q" = OpsAction.quit ∧
    opsMenuAction "quit" = OpsAction.quit := by
  refine ⟨?_, ?_, ?_, ?_⟩ <;> decide

/-- C4 amended: every keyword prompt except the bulk-operations menu reads
its line stripped and lower-cased, so "Q"/"QUIT" behave like "q"/"quit" at
the directory menu, the file menu and the delete confirmation; the
bulk-operations menu only strips, exiting exactly on stripped input "4",
"q", "quit" or empty, and treating "Q"/"QUIT" as unrecognized. -/
theorem c4_amended_keyword_normalization :
    (∀ raw : String, opsMenuAction raw = OpsAction.quit ↔
      (pyStrip raw = "4" ∨ pyStrip raw = "q" ∨ pyStrip raw = "quit" ∨ pyStrip raw = "")) ∧
    opsMenuAction "Q" = OpsAction.invalid ∧
    opsMenuAction " 4 " = OpsAction.quit ∧
    (∀ cur dirs, handle_directory_choice (menuRead "Q") cur dirs
      = handle_directory_choice (menuRead "q") cur dirs) ∧
    (∀ cur dirs, handle_directory_choice (menuRead "QUIT") cur dirs
      = handle_directory_choice (menuRead "quit") cur dirs) ∧
    (∀ files sel, handle_file_choice (menuRead "Q") files sel
      = handle_file_choice (menuRead "q") files sel) ∧
    (∀ files fs0 fs1, delete_files "Y" files fs0 fs1 = delete_files "y" files fs0 fs1) := by
  refine ⟨?_, by decide, by decide, ?_, ?_, ?_, ?_⟩
  · intro raw
    dsimp only [opsMenuAction]
    split_ifs with h1 h2 h3 h4 <;> simp_all
  · intro cur dirs
    rw [show menuRead "Q" = menuRead "q" from by decide]
  · intro cur dirs
    rw [show menuRead "QUIT" = menuRead "quit" from by decide]
  · intro files sel
    rw [show menuRead "Q" = menuRead "q" from by decide]
  · intro files fs0 fs1
    unfold delete_files
    rw [show menuRead "Y" = menuRead "y" from by decide]

theorem delLoop_spec (files : List PathM) (fs : Finset PathM) :
    ∃ k, k ≤ files.length ∧
      (delLoop files fs).2.1 = files.take k ∧
      (delLoop files fs).1 = (files.take k).foldl (fun g f => g.erase f) fs ∧
      ((k = files.length ∧ (delLoop files fs).2.2 = none) ∨
        (∃ f rest, files.drop k = f :: rest ∧ (delLoop files fs).2.2 = some f)) := by
  induction files generalizing fs with
  | nil => exact ⟨0, by simp [delLoop]⟩
  | cons f rest ih =>
    by_cases h : f ∈ fs
    · obtain ⟨k, hk, h1, h2, h3⟩ := ih (fs.erase f)
      refine ⟨k + 1, by simp; omega, ?_, ?_, ?_⟩
      · simp [delLoop, h, h1]
      · simp [delLoop, h, h2]
      · rcases h3 with ⟨hk2, hnone⟩ | ⟨g, r2, hd2, hsome⟩
        · exact Or.inl ⟨by simp [hk2], by simp [delLoop, h, hnone]⟩
        · exact Or.inr ⟨g, r2, by simpa using hd2, by simp [delLoop, h, hsome]⟩
    · exact ⟨0, by simp [delLoop, h]⟩

/-- C1: once a non-empty selection is confirmed, the deletion loop removes
files sequentially in selection order; the first operating-system failure
stops the batch, no later file is attempted, and the final report counts the
files actually deleted out of the full selection size. -/
theorem c1_delete_stops_on_first_error (confirmRaw : String) (files : List PathM)
    (fs0 fs1 : Finset PathM)
    (hne : files ≠ [])
    (hdisp : ∀ f ∈ files, f ∈ fs0)
    (hyes : menuRead confirmRaw = "y" ∨ menuRead confirmRaw = "yes") :
    ∃ k, k ≤ files.length ∧
      (delete_files confirmRaw files fs0 fs1).2.unlinked = files.take k ∧
      (delete_files confirmRaw files fs0 fs1).2.reported = some (k, files.length) ∧
      (delete_files confirmRaw files fs0 fs1).1
        = (files.take k).foldl (fun g f => g.erase f) fs1 ∧
      ((k = files.length ∧ (delete_files confirmRaw files fs0 fs1).2.errorAt = none) ∨
        (∃ f rest, files.drop k = f :: rest ∧
          (delete_files confirmRaw files fs0 fs1).2.errorAt = some f)) := by
  obtain ⟨k, hk, h1, h2, h3⟩ := delLoop_spec files fs1
  have hall : (files.all fun f => decide (f ∈ fs0)) = true := by
    rw [List.all_eq_true]
    intro f hf
    simpa using hdisp f hf
  have hc : ¬ (menuRead confirmRaw ≠ "y" ∧ menuRead confirmRaw ≠ "yes") := by
    rcases hyes with h | h <;> simp [h]
  have hdf : delete_files confirmRaw files fs0 fs1 =
      ((delLoop files fs1).1,
        ⟨(delLoop files fs1).2.1, (delLoop files fs1).2.2, false, false,
          some ((delLoop files fs1).2.1.length, files.length)⟩) := by
    simp [delete_files, hne, hall, hc]
  refine ⟨k, hk, ?_, ?_, ?_, ?_⟩
  · rw [hdf]; exact h1
  · rw [hdf]
    simp [h1, List.length_take, Nat.min_eq_left hk]
  · rw [hdf]; exact h2
  · rw [hdf]; exact h3

/-- C2: whenever the single global delete confirmation is answered with
anything whose stripped, lowered form is neither "y" nor "yes" (the empty
string included), `delete_files` unlinks nothing and leaves the filesystem
unchanged; when the confirmation was actually reached (non-empty selection,
display succeeded), the operation reports cancellation. -/
theorem c2_delete_cancel_no_side_effects (confirmRaw : String) (files : List PathM)
    (fs0 fs1 : Finset PathM)
    (hno : menuRead confirmRaw ≠ "y" ∧ menuRead confirmRaw ≠ "yes") :
    (delete_files confirmRaw files fs0 fs1).1 = fs1 ∧
    (delete_files confirmRaw files fs0 fs1).2.unlinked = [] ∧
    (files ≠ [] → (∀ f ∈ files, f ∈ fs0) →
      (delete_files confirmRaw files fs0 fs1).2.cancelled = true) := by
  unfold delete_files
  split_ifs with h1 h2 <;> simp_all [List.all_eq_true]

theorem rename_files_shape (ins : List String) (files : List PathM) (fs : Finset PathM) :
    (rename_files ins files fs).2.2.map Prod.fst = files ∧
    (rename_files ins files fs).1 = files := by
  induction files generalizing ins fs with
  | nil => simp [rename_files]
  | cons f rest ih =>
    have h := ih ins.tail (renameOne (ins.headD "") f fs).1
    simp only [rename_files]
    constructor
    · simpa using h.1
    · simpa using h.2

/-- C3: during a rename batch every selected file is processed in order; an
empty new name, a reserved-character name, or an already existing
destination path skips that file and leaves the filesystem — including the
source file and the existing destination — untouched, and an
operating-system rename failure likewise leaves the filesystem unchanged for
that file only; the batch always continues through every file. -/
theorem c3_rename_skip_and_continue :
    (∀ ins files fs, (rename_files ins files fs).2.2.map Prod.fst = files) ∧
    (∀ nm f fs, pyStrip nm = "" →
      renameOne nm f fs = (fs, RenMsg.skippedEmpty)) ∧
    (∀ nm f fs, pyStrip nm ≠ "" → validate_filename (pyStrip nm) = false →
      renameOne nm f fs = (fs, RenMsg.skippedInvalid)) ∧
    (∀ nm f fs, pyStrip nm ≠ "" → validate_filename (pyStrip nm) = true →
      (⟨f.dir, pyStrip nm⟩ : PathM) ∈ fs →
      renameOne nm f fs = (fs, RenMsg.skippedExists)) ∧
    (∀ nm f fs, pyStrip nm ≠ "" → validate_filename (pyStrip nm) = true →
      (⟨f.dir, pyStrip nm⟩ : PathM) ∉ fs → f ∉ fs →
      renameOne nm f fs = (fs, RenMsg.osError)) := by
  refine ⟨fun ins files fs => (rename_files_shape ins files fs).1, ?_, ?_, ?_, ?_⟩
  · intro nm f fs h
    simp [renameOne, h]
  · intro nm f fs h1 h2
    simp [renameOne, h1, h2]
  · intro nm f fs h1 h2 h3
    simp [renameOne, h1, h2, h3]
  · intro nm f fs h1 h2 h3 h4
    simp [renameOne, h1, h2, h3, h4]

theorem handle_file_choice_inv (c : String) (files sel : List PathM)
    (h1 : sel.Nodup) (h2 : sel ⊆ files) :
    (handle_file_choice c files sel).1.Nodup ∧
      (handle_file_choice c files sel).1 ⊆ files := by
  unfold handle_file_choice
  split_ifs with ha hb hc hd he hf
  · exact ⟨h1, h2⟩
  · exact ⟨List.nodup_nil, by simp⟩
  · exact ⟨List.nodup_nil, by simp⟩
  · exact ⟨h1.erase _, (List.erase_subset _ sel).trans h2⟩
  · refine ⟨?_, ?_⟩
    · simp only [List.nodup_append, h1]
      simp only [List.nodup_singleton, true_and]
      intro x hx hx1
      simp only [List.mem_singleton] at hx1
      subst hx1
      exact hf hx
    · intro x hx
      rcases List.mem_append.mp hx with hx | hx
      · exact h2 hx
      · simp only [List.mem_singleton] at hx
        subst hx
        exact List.get_mem files _ _
  · exact ⟨h1, h2⟩
  · exact ⟨h1, h2⟩

/-- C6: throughout a File Selector session, any sequence of inputs applied
to the empty selection yields a selection with no duplicate paths, all of
whose elements come from the listed files, whose length never exceeds the
number of listed files; and each single step either keeps the selection's
relative order (no change, clear, or removal of one element) or appends one
listed file at the end. -/
theorem c6_selection_invariants (files : List PathM) (choices : List String) :
    (apply_file_choices files choices).Nodup ∧
    (apply_file_choices files choices) ⊆ files ∧
    (apply_file_choices files choices).length ≤ files.length ∧
    (∀ c sel, (handle_file_choice c files sel).1.Sublist sel ∨
      ∃ f, f ∈ files ∧ (handle_file_choice c files sel).1 = sel ++ [f]) := by
  have main : ∀ (cs : List String) (sel : List PathM), sel.Nodup → sel ⊆ files →
      (cs.foldl (fun s c => (handle_file_choice c files s).1) sel).Nodup ∧
      (cs.foldl (fun s c => (handle_file_choice c files s).1) sel) ⊆ files := by
    intro cs
    induction cs with
    | nil => exact fun sel hn hs => ⟨hn, hs⟩
    | cons c rest ih =>
      intro sel hn hs
      have h := handle_file_choice_inv c files sel hn hs
      exact ih _ h.1 h.2
  have h0 : apply_file_choices files choices
      = choices.foldl (fun s c => (handle_file_choice c files s).1) [] := rfl
  obtain ⟨hn, hs⟩ := main choices [] List.nodup_nil (by simp)
  rw [h0]
  refine ⟨hn, hs, ?_, ?_⟩
  · calc (choices.foldl (fun s c => (handle_file_choice c files s).1) []).length
        = (choices.foldl (fun s c => (handle_file_choice c files s).1) []).toFinset.card :=
          (List.toFinset_card_of_nodup hn).symm
      _ ≤ files.toFinset.card := Finset.card_le_card (fun x hx => by
          simp only [List.mem_toFinset] at hx ⊢
          exact hs hx)
      _ ≤ files.length := List.toFinset_card_le files
  · intro c sel
    unfold handle_file_choice
    split_ifs with ha hb hc hd he hf
    · exact Or.inl (List.Sublist.refl sel)
    · exact Or.inl (List.nil_sublist sel)
    · exact Or.inl (List.nil_sublist sel)
    · exact Or.inl (List.erase_sublist _ sel)
    · exact Or.inr ⟨_, List.get_mem files _ _, rfl⟩
    · exact Or.inl (List.Sublist.refl sel)
    · exact Or.inl (List.Sublist.refl sel)

theorem digit_not_d {c : String} (h : pyIsDigit c = true) :
    ¬(c = "d" ∨ c = "done" ∨ c = "") := by
  rintro (rfl | rfl | rfl) <;> exact absurd h (by decide)

theorem digit_not_q {c : String} (h : pyIsDigit c = true) :
    ¬(c = "q" ∨ c = "quit") := by
  rintro (rfl | rfl) <;> exact absurd h (by decide)

theorem digit_not_c {c : String} (h : pyIsDigit c = true) :
    ¬(c = "c" ∨ c = "clear") := by
  rintro (rfl | rfl) <;> exact absurd h (by decide)

theorem handle_file_choice_toggle (choice : String) (files : List PathM) (i : Nat)
    (hdig : pyIsDigit choice = true) (hval : pyToNat choice = i + 1)
    (hi : i < files.length) (s : List PathM) :
    handle_file_choice choice files s =
      if files.get ⟨i, hi⟩ ∈ s then (s.erase (files.get ⟨i, hi⟩), true)
      else (s ++ [files.get ⟨i, hi⟩], true) := by
  unfold handle_file_choice
  rw [if_neg (digit_not_d hdig), if_neg (digit_not_q hdig), if_neg (digit_not_c hdig),
    if_pos hdig]
  have hcond : 1 ≤ pyToNat choice ∧ pyToNat choice - 1 < files.length := by
    constructor <;> omega
  rw [dif_pos hcond]
  have hidx : pyToNat choice - 1 = i := by omega
  congr 1 <;> simp [hidx]

/-- C7: toggling a valid 1-indexed file twice in the File Selector restores
exactly the prior membership of that file in the selection — adding then
removing, or removing then re-adding, with no other change to membership. -/
theorem c7_double_toggle (files sel : List PathM) (choice : String) (i : Nat)
    (hnd : sel.Nodup) (hdig : pyIsDigit choice = true)
    (hval : pyToNat choice = i + 1) (hi : i < files.length) :
    (∀ x, x ∈ (handle_file_choice choice files
        (handle_file_choice choice files sel).1).1 ↔ x ∈ sel) ∧
    (files.get ⟨i, hi⟩ ∉ sel →
      (handle_file_choice choice files
        (handle_file_choice choice files sel).1).1 = sel) ∧
    (files.get ⟨i, hi⟩ ∈ sel →
      files.get ⟨i, hi⟩ ∉ (handle_file_choice choice files sel).1) := by
  have hstep := handle_file_choice_toggle choice files i hdig hval hi
  by_cases hf : files.get ⟨i, hi⟩ ∈ sel
  · have h1 : (handle_file_choice choice files sel).1 = sel.erase (files.get ⟨i, hi⟩) := by
      rw [hstep sel, if_pos hf]
    have hnotin : files.get ⟨i, hi⟩ ∉ sel.erase (files.get ⟨i, hi⟩) := by
      intro hmem
      exact absurd ((hnd.mem_erase_iff.mp hmem).1) (by simp)
    have h2 : (handle_file_choice choice files
        (handle_file_choice choice files sel).1).1
        = sel.erase (files.get ⟨i, hi⟩) ++ [files.get ⟨i, hi⟩] := by
      rw [h1, hstep _, if_neg hnotin]
    refine ⟨?_, fun hcon => absurd hf hcon, fun _ => h1 ▸ hnotin⟩
    intro x
    rw [h2]
    simp only [List.mem_append, List.mem_singleton, hnd.mem_erase_iff]
    constructor
    · rintro (⟨hne, hmem⟩ | rfl)
      · exact hmem
      · exact hf
    · intro hmem
      by_cases hx : x = files.get ⟨i, hi⟩
      · exact Or.inr hx
      · exact Or.inl ⟨hx, hmem⟩
  · have h1 : (handle_file_choice choice files sel).1 = sel ++ [files.get ⟨i, hi⟩] := by
      rw [hstep sel, if_neg hf]
    have hin : files.get ⟨i, hi⟩ ∈ sel ++ [files.get ⟨i, hi⟩] := by simp
    have h2 : (handle_file_choice choice files
        (handle_file_choice choice files sel).1).1 = sel := by
      rw [h1, hstep _, if_pos hin, List.erase_append_right _ hf]
      simp
    exact ⟨fun x => by rw [h2], fun _ => h2, fun hcon => absurd hcon hf⟩

theorem renameOne_fs_mem {nm : String} {f x : PathM} {fs : Finset PathM}
    (hx : x ∈ (renameOne nm f fs).1) :
    x ∈ fs ∨ (renameOne nm f fs).2 = RenMsg.renamed x := by
  simp only [renameOne] at hx ⊢
  split_ifs at hx ⊢ with h1 h2 h3 h4
  · exact Or.inl hx
  · exact Or.inl hx
  · exact Or.inl hx
  · rcases Finset.mem_insert.mp hx with rfl | hx
    · exact Or.inr rfl
    · exact Or.inl (Finset.mem_of_mem_erase hx)
  · exact Or.inl hx

theorem renameOne_renamed_inv {nm : String} {f p : PathM} {fs : Finset PathM}
    (h : (renameOne nm f fs).2 = RenMsg.renamed p) :
    (renameOne nm f fs).1 = insert p (fs.erase f) ∧ p ∉ fs ∧ f ∈ fs := by
  simp only [renameOne] at h ⊢
  split_ifs at h with h1 h2 h3 h4
  have hp : ({ dir := f.dir, name := pyStrip nm } : PathM) = p := by
    simpa using h
  subst hp
  simp [h1, h2, h3, h4]

theorem rename_fs_mem (ins : List String) (files : List PathM) (fs : Finset PathM)
    (x : PathM) (hx : x ∈ (rename_files ins files fs).2.1) :
    x ∈ fs ∨ ∃ g, (g, RenMsg.renamed x) ∈ (rename_files ins files fs).2.2 := by
  induction files generalizing ins fs with
  | nil =>
    simp only [rename_files] at hx
    exact Or.inl hx
  | cons f rest ih =>
    simp only [rename_files] at hx ⊢
    rcases ih ins.tail (renameOne (ins.headD "") f fs).1 hx with hx1 | ⟨g, hg⟩
    · rcases renameOne_fs_mem hx1 with hx2 | hx2
      · exact Or.inl hx2
      · refine Or.inr ⟨f, ?_⟩
        simp only [List.mem_cons]
        exact Or.inl (by rw [hx2])
    · exact Or.inr ⟨g, List.mem_cons_of_mem _ hg⟩

theorem rename_staleness (files : List PathM) :
    ∀ (ins : List String) (fs : Finset PathM) (f p : PathM),
      (f, RenMsg.renamed p) ∈ (rename_files ins files fs).2.2 →
      f ∉ (rename_files ins files fs).2.1 ∨
        ∃ g, (g, RenMsg.renamed f) ∈ (rename_files ins files fs).2.2 := by
  induction files with
  | nil =>
    intro ins fs f p h
    simp [rename_files] at h
  | cons f0 rest ih =>
    intro ins fs f p hmem
    simp only [rename_files, List.mem_cons] at hmem ⊢
    rcases hmem with heq | htail
    · have hf : f = f0 := congrArg Prod.fst heq
      subst hf
      have hm : (renameOne (ins.headD "") f fs).2 = RenMsg.renamed p := by
        have h2 := congrArg Prod.snd heq
        simpa using h2.symm
      obtain ⟨hfs1, hpnot, hfin⟩ := renameOne_renamed_inv hm
      by_cases hin : f ∈ (rename_files ins.tail rest (renameOne (ins.headD "") f fs).1).2.1
      · rcases rename_fs_mem ins.tail rest (renameOne (ins.headD "") f fs).1 f hin
          with h1 | ⟨g, hg⟩
        · rw [hfs1] at h1
          rcases Finset.mem_insert.mp h1 with rfl | h1
          · exact absurd hfin hpnot
          · exact absurd h1 (Finset.not_mem_erase f fs)
        · exact Or.inr ⟨g, Or.inr hg⟩
      · exact Or.inl hin
    · rcases ih ins.tail (renameOne (ins.headD "") f0 fs).1 f p htail with h1 | ⟨g, hg⟩
      · exact Or.inl h1
      · exact Or.inr ⟨g, Or.inr hg⟩

/-- C10: `rename_files` never mutates the selection it is given — afterwards
the list has the same elements in the same order — so a successfully renamed
file stays selected under its original path; that path no longer exists
unless a later rename in the same batch recreated it, and a subsequent
delete on the same selection hits the stale path while displaying sizes and
crashes out without unlinking anything. -/
theorem c10_rename_never_mutates_selection (ins : List String) (sel : List PathM)
    (fs : Finset PathM) :
    (rename_files ins sel fs).1 = sel ∧
    (∀ f p, (f, RenMsg.renamed p) ∈ (rename_files ins sel fs).2.2 →
      f ∉ (rename_files ins sel fs).2.1 ∨
        ∃ g, (g, RenMsg.renamed f) ∈ (rename_files ins sel fs).2.2) ∧
    (∀ confirmRaw fs1 f, f ∈ sel → f ∉ (rename_files ins sel fs).2.1 →
      delete_files confirmRaw sel (rename_files ins sel fs).2.1 fs1
        = (fs1, ⟨[], none, true, false, none⟩)) := by
  refine ⟨(rename_files_shape ins sel fs).2,
    fun f p h => rename_staleness sel ins fs f p h, ?_⟩
  intro confirmRaw fs1 f hf hnot
  have hne : sel ≠ [] := List.ne_nil_of_mem hf
  have hall : (sel.all fun x => decide (x ∈ (rename_files ins sel fs).2.1)) = false := by
    rw [List.all_eq_false]
    exact ⟨f, hf, by simpa using hnot⟩
  simp [delete_files, hne, hall]

theorem c1_witness_stale_second_file :
    ∃ k, k ≤ ([⟨[], "f1"⟩, ⟨[], "f2"⟩, ⟨[], "f3"⟩] : List PathM).length ∧
      (delete_files "y" [⟨[], "f1"⟩, ⟨[], "f2"⟩, ⟨[], "f3"⟩]
        {⟨[], "f1"⟩, ⟨[], "f2"⟩, ⟨[], "f3"⟩} {⟨[], "f1"⟩, ⟨[], "f3"⟩}).2.unlinked
        = ([⟨[], "f1"⟩, ⟨[], "f2"⟩, ⟨[], "f3"⟩] : List PathM).take k ∧
      (delete_files "y" [⟨[], "f1"⟩, ⟨[], "f2"⟩, ⟨[], "f3"⟩]
        {⟨[], "f1"⟩, ⟨[], "f2"⟩, ⟨[], "f3"⟩} {⟨[], "f1"⟩, ⟨[], "f3"⟩}).2.reported
        = some (k, ([⟨[], "f1"⟩, ⟨[], "f2"⟩, ⟨[], "f3"⟩] : List PathM).length) ∧
      (delete_files "y" [⟨[], "f1"⟩, ⟨[], "f2"⟩, ⟨[], "f3"⟩]
        {⟨[], "f1"⟩, ⟨[], "f2"⟩, ⟨[], "f3"⟩} {⟨[], "f1"⟩, ⟨[], "f3"⟩}).1
        = (([⟨[], "f1"⟩, ⟨[], "f2"⟩, ⟨[], "f3"⟩] : List PathM).take k).foldl
            (fun g f => g.erase f) {⟨[], "f1"⟩, ⟨[], "f3"⟩} ∧
      ((k = ([⟨[], "f1"⟩, ⟨[], "f2"⟩, ⟨[], "f3"⟩] : List PathM).length ∧
          (delete_files "y" [⟨[], "f1"⟩, ⟨[], "f2"⟩, ⟨[], "f3"⟩]
            {⟨[], "f1"⟩, ⟨[], "f2"⟩, ⟨[], "f3"⟩} {⟨[], "f1"⟩, ⟨[], "f3"⟩}).2.errorAt = none) ∨
        (∃ f rest, ([⟨[], "f1"⟩, ⟨[], "f2"⟩, ⟨[], "f3"⟩] : List PathM).drop k = f :: rest ∧
          (delete_files "y" [⟨[], "f1"⟩, ⟨[], "f2"⟩, ⟨[], "f3"⟩]
            {⟨[], "f1"⟩, ⟨[], "f2"⟩, ⟨[], "f3"⟩} {⟨[], "f1"⟩, ⟨[], "f3"⟩}).2.errorAt = some f)) :=
  c1_delete_stops_on_first_error "y" [⟨[], "f1"⟩, ⟨[], "f2"⟩, ⟨[], "f3"⟩]
    {⟨[], "f1"⟩, ⟨[], "f2"⟩, ⟨[], "f3"⟩} {⟨[], "f1"⟩, ⟨[], "f3"⟩}
    (by decide) (by decide) (by decide)

theorem c2_witness_answer_n :
    (delete_files "n" [⟨[], "f1"⟩] {⟨[], "f1"⟩} {⟨[], "f1"⟩}).1 = {⟨[], "f1"⟩} ∧
    (delete_files "n" [⟨[], "f1"⟩] {⟨[], "f1"⟩} {⟨[], "f1"⟩}).2.unlinked = [] ∧
    (([⟨[], "f1"⟩] : List PathM) ≠ [] →
      (∀ f ∈ ([⟨[], "f1"⟩] : List PathM), f ∈ ({⟨[], "f1"⟩} : Finset PathM)) →
      (delete_files "n" [⟨[], "f1"⟩] {⟨[], "f1"⟩} {⟨[], "f1"⟩}).2.cancelled = true) :=
  c2_delete_cancel_no_side_effects "n" [⟨[], "f1"⟩] {⟨[], "f1"⟩} {⟨[], "f1"⟩} (by decide)

theorem c3_witness_existing_destination :
    renameOne "f1" ⟨[], "src"⟩ {⟨[], "f1"⟩, ⟨[], "src"⟩}
      = ({⟨[], "f1"⟩, ⟨[], "src"⟩}, RenMsg.skippedExists) :=
  c3_rename_skip_and_continue.2.2.2.1 "f1" ⟨[], "src"⟩ {⟨[], "f1"⟩, ⟨[], "src"⟩}
    (by decide) (by decide) (by decide)

theorem c6_witness_one_toggle :
    (apply_file_choices [⟨[], "a"⟩] ["1"]).Nodup :=
  (c6_selection_invariants [⟨[], "a"⟩] ["1"]).1

theorem c7_witness_add_then_remove :
    (handle_file_choice "1" [⟨[], "a"⟩, ⟨[], "b"⟩]
      (handle_file_choice "1" [⟨[], "a"⟩, ⟨[], "b"⟩] []).1).1 = [] :=
  (c7_double_toggle [⟨[], "a"⟩, ⟨[], "b"⟩] [] "1" 0
    (by decide) (by decide) (by decide) (by decide)).2.1 (by decide)

set_option maxHeartbeats 1000000 in
theorem c10_witness_delete_after_rename :
    delete_files "y" [⟨[], "a"⟩] (rename_files ["b"] [⟨[], "a"⟩] {⟨[], "a"⟩}).2.1
        {⟨[], "b"⟩}
      = ({⟨[], "b"⟩}, ⟨[], none, true, false, none⟩) :=
  (c10_rename_never_mutates_selection ["b"] [⟨[], "a"⟩] {⟨[], "a"⟩}).2.2
    "y" {⟨[], "b"⟩} ⟨[], "a"⟩ (by decide) (by decide)
